import Mathlib

/-!
Verification of the lexical scanner in `src/source/scanner.h`.

The scanner is embedded shallowly: the source buffer (`std::string sourceCode_`)
is a `List Char`, the mutable scanner state (`currentPosition_`, `line_`) is the
structure `ScanState`, and each member function of the C++ `Scanner` class is a
Lean function threading that state explicitly.  Loops (`while` statements in
`skipWhitespaceAndComments` and `scanIdentifier`) become fuel-indexed structural
recursions; the fuel only bounds the number of iterations, every exit is decided
by the same guards the source loops use, and the wrappers pass more fuel than
there are characters left, which the loop-progress lemmas below show is always
enough.  Because `getNextToken` can fall off the end of the function without
returning (a path the C++ code leaves as undefined behaviour), the embedded
`getNextToken` returns `Option Token`, with `none` on exactly those paths.

Every function also returns the list of indices at which it reads the source
buffer (`sourceCode_[i]`), so that buffer-access safety can be stated.  Reading
the buffer at an index `i ≤ length` is modelled by `charAt`, which returns the
stored character for `i < length` and the terminating NUL for `i = length`,
matching the guarantee of `std::string::operator[]`.
-/

/-- Token kinds, as used by `scanner.h` (the enum itself lives in the header
`tokens.h`, which only declares the names used here). -/
inductive TokenType where
  | PLUS | MINUS | ARROW | ASTERISK | DOUBLE_SLASH | MODULO
  | LESS | LESS_EQUAL | GREATER | GREATER_EQUAL | EQUALS | ASSIGN | NOT_EQUAL
  | LEFT_PAREN | RIGHT_PAREN | LEFT_BRACKET | RIGHT_BRACKET
  | COMMA | COLON | DOT
  | END_OF_FILE | IDENTIFIER
  | KW_FALSE | KW_NONE | KW_TRUE | KW_AND | KW_AS | KW_ASSERT | KW_ASYNC
  | KW_AWAIT | KW_BREAK | KW_CLASS | KW_CONTINUE | KW_DEF | KW_DEL | KW_ELIF
  | KW_ELSE | KW_EXCEPT | KW_FINALLY | KW_FOR | KW_FROM | KW_GLOBAL | KW_IF
  | KW_IMPORT | KW_IN | KW_IS | KW_LAMBDA | KW_NONLOCAL | KW_NOT | KW_OR
  | KW_PASS | KW_RAISE | KW_RETURN | KW_TRY | KW_WHILE | KW_WITH | KW_YIELD
  deriving DecidableEq, Repr

/-- The `Token` class of `scanner.h` (lines 8-23): kind, lexeme and line. -/
structure Token where
  type_ : TokenType
  lexeme_ : String
  line_ : Nat
  deriving DecidableEq, Repr

/-- The mutable fields of the `Scanner` class (lines 230-233): the cursor
`currentPosition_` and the current line number `line_`. -/
structure ScanState where
  currentPosition_ : Nat
  line_ : Nat
  deriving DecidableEq, Repr

/-- The state installed by the `Scanner` constructor (lines 27-30):
position `0`, line `1`. -/
def initState : ScanState := ⟨0, 1⟩

/-- Reading `sourceCode_[i]`.  For `i < length` this is the stored character;
for `i = length`, `std::string::operator[]` returns the NUL terminator.  Larger
indices never occur (claim C10), so the default is irrelevant there. -/
def charAt (src : List Char) (i : Nat) : Char :=
  src.getD i (Char.ofNat 0)

/-- `Scanner::isAtEnd` (lines 110-112): `currentPosition_ >= sourceCode_.length()`. -/
def isAtEnd (src : List Char) (st : ScanState) : Bool :=
  decide (src.length ≤ st.currentPosition_)

/-- `Scanner::getChar` (lines 114-116): return `sourceCode_[currentPosition_++]`.
Also returns the index read. -/
def getCharR (src : List Char) (st : ScanState) : (Char × ScanState) × List Nat :=
  ((charAt src st.currentPosition_, ⟨st.currentPosition_ + 1, st.line_⟩),
   [st.currentPosition_])

/-- `Scanner::peekChar` (lines 118-123): NUL when at end, otherwise the
character at `currentPosition_ + 1` (note: one PAST the next unconsumed
character).  Also returns the index read, when the unguarded access runs. -/
def peekCharR (src : List Char) (st : ScanState) : Char × List Nat :=
  if isAtEnd src st then (Char.ofNat 0, [])
  else (charAt src (st.currentPosition_ + 1), [st.currentPosition_ + 1])

/-- `Scanner::match` (lines 125-131): succeed and advance exactly when not at
end and the peeked character equals the expected one.  (Named `matchChar` here
because `match` is a Lean keyword.) -/
def matchChar (src : List Char) (st : ScanState) (peek expected : Char) :
    Bool × ScanState :=
  if isAtEnd src st || peek ≠ expected then (false, st)
  else (true, ⟨st.currentPosition_ + 1, st.line_⟩)

/-- The inner comment loop of `Scanner::skipWhitespaceAndComments`
(lines 146-148): advance while not at end and the current character is not a
newline.  Returns the final position and the indices read. -/
def skipCommentGo (src : List Char) : Nat → Nat → Nat × List Nat
  | 0, pos => (pos, [])
  | fuel + 1, pos =>
    if pos < src.length then
      if charAt src pos = '\n' then (pos, [pos])
      else
        let r := skipCommentGo src fuel (pos + 1)
        (r.1, pos :: r.2)
    else (pos, [])

/-- The comment loop with enough fuel to cross the whole buffer. -/
def skipComment (src : List Char) (pos : Nat) : Nat × List Nat :=
  skipCommentGo src (src.length + 1) pos

/-- `Scanner::skipWhitespaceAndComments` (lines 133-154): skip spaces, tabs and
carriage returns; consume newlines incrementing `line_`; on `#` run the comment
loop; stop at any other character or at end. -/
def skipWSGo (src : List Char) : Nat → ScanState → ScanState × List Nat
  | 0, st => (st, [])
  | fuel + 1, st =>
    if st.currentPosition_ < src.length then
      let c := charAt src st.currentPosition_
      if c = ' ' ∨ c = '\t' ∨ c = '\r' then
        let r := skipWSGo src fuel ⟨st.currentPosition_ + 1, st.line_⟩
        (r.1, st.currentPosition_ :: r.2)
      else if c = '\n' then
        let r := skipWSGo src fuel ⟨st.currentPosition_ + 1, st.line_ + 1⟩
        (r.1, st.currentPosition_ :: r.2)
      else if c = '#' then
        let pc := skipComment src st.currentPosition_
        let r := skipWSGo src fuel ⟨pc.1, st.line_⟩
        (r.1, st.currentPosition_ :: (pc.2 ++ r.2))
      else (st, [st.currentPosition_])
    else (st, [])

/-- The whitespace-and-comment skipper with enough fuel for the whole buffer. -/
def skipWhitespaceAndComments (src : List Char) (st : ScanState) :
    ScanState × List Nat :=
  skipWSGo src (src.length + 1) st

/-- `Scanner::isAlpha` (lines 222-224): `std::isalpha` (ASCII letters in the
default locale) or underscore. -/
def isAlpha (c : Char) : Bool :=
  c.isAlpha || c = '_'

/-- `Scanner::isAlphaNumeric` (lines 226-228): `std::isalnum` or underscore. -/
def isAlphaNumeric (c : Char) : Bool :=
  c.isAlphanum || c = '_'

/-- The identifier loop of `Scanner::scanIdentifier` (lines 160-162): append
characters while not at end and the current character is alphanumeric or an
underscore. -/
def scanIdentGo (src : List Char) : Nat → Nat → List Char → (List Char × Nat) × List Nat
  | 0, pos, acc => ((acc, pos), [])
  | fuel + 1, pos, acc =>
    if pos < src.length then
      if isAlphaNumeric (charAt src pos) || charAt src pos = '_' then
        let r := scanIdentGo src fuel (pos + 1) (acc ++ [charAt src pos])
        (r.1, pos :: r.2)
      else ((acc, pos), [pos])
    else ((acc, pos), [])

/-- `Scanner::getKeywordType` (lines 170-220): the chain of string comparisons,
in source order; anything that matches none of them is an `IDENTIFIER`. -/
def getKeywordType (lexeme : String) : TokenType :=
  match lexeme with
  | "false" => .KW_FALSE
  | "none" => .KW_NONE
  | "true" => .KW_TRUE
  | "and" => .KW_AND
  | "as" => .KW_AS
  | "assert" => .KW_ASSERT
  | "async" => .KW_ASYNC
  | "await" => .KW_AWAIT
  | "break" => .KW_BREAK
  | "class" => .KW_CLASS
  | "continue" => .KW_CONTINUE
  | "def" => .KW_DEF
  | "del" => .KW_DEL
  | "elif" => .KW_ELIF
  | "else" => .KW_ELSE
  | "except" => .KW_EXCEPT
  | "finally" => .KW_FINALLY
  | "for" => .KW_FOR
  | "from" => .KW_FROM
  | "global" => .KW_GLOBAL
  | "if" => .KW_IF
  | "import" => .KW_IMPORT
  | "in" => .KW_IN
  | "is" => .KW_IS
  | "lambda" => .KW_LAMBDA
  | "nonlocal" => .KW_NONLOCAL
  | "not" => .KW_NOT
  | "or" => .KW_OR
  | "pass" => .KW_PASS
  | "raise" => .KW_RAISE
  | "return" => .KW_RETURN
  | "try" => .KW_TRY
  | "while" => .KW_WHILE
  | "with" => .KW_WITH
  | "yield" => .KW_YIELD
  | _ => .IDENTIFIER

/-- `Scanner::scanIdentifier` (lines 156-168): seed the lexeme with the
character at `currentPosition_ - 1`, run the identifier loop, classify the
lexeme with `getKeywordType`. -/
def scanIdentifierR (src : List Char) (st : ScanState) :
    (Token × ScanState) × List Nat :=
  let first := charAt src (st.currentPosition_ - 1)
  let r := scanIdentGo src (src.length + 1) st.currentPosition_ [first]
  let lexeme : String := ⟨r.1.1⟩
  ((⟨getKeywordType lexeme, lexeme, st.line_⟩, ⟨r.1.2, st.line_⟩),
   (st.currentPosition_ - 1) :: r.2)

/-- The common shape of the two-character-operator cases of the switch in
`Scanner::getNextToken`: peek, then `match` against `expected`, producing the
two-character token on success and the fallback token otherwise.  The `-`,
`<`, `>`, `=` and `!` cases all instantiate this (for `!`, the fallback is the
`LEFT_PAREN` token that the fall-through into `case '('` produces). -/
def pairOp (src : List Char) (st : ScanState) (expected : Char)
    (two one : Token) : (Option Token × ScanState) × List Nat :=
  let rp := peekCharR src st
  let m := matchChar src st rp.1 expected
  ((if m.1 then some two else some one, m.2), rp.2)

/-- The `switch (c)` of `Scanner::getNextToken` (lines 41-106), entered with
`st` the state right after `getChar` consumed `c`.  Case order and the
fall-through from the unhandled-`!` branch into `case '('` follow the source;
paths on which the C++ function falls off its end without returning (the source
comments `handle error and skip to next char` and `(handle other cases)` have
no code) yield `none`. -/
def tokenSwitch (src : List Char) (c : Char) (st : ScanState) :
    (Option Token × ScanState) × List Nat :=
  match c with
  | '+' => ((some ⟨.PLUS, "+", st.line_⟩, st), [])
  | '-' => pairOp src st '>' ⟨.ARROW, "->", st.line_⟩ ⟨.MINUS, "-", st.line_⟩
  | '*' => ((some ⟨.ASTERISK, "*", st.line_⟩, st), [])
  | '/' => ((some ⟨.DOUBLE_SLASH, "//", st.line_⟩, st), [])
  | '%' => ((some ⟨.MODULO, "%", st.line_⟩, st), [])
  | '<' => pairOp src st '=' ⟨.LESS_EQUAL, "<=", st.line_⟩ ⟨.LESS, "<", st.line_⟩
  | '>' => pairOp src st '=' ⟨.GREATER_EQUAL, ">=", st.line_⟩ ⟨.GREATER, ">", st.line_⟩
  | '=' => pairOp src st '=' ⟨.EQUALS, "==", st.line_⟩ ⟨.ASSIGN, "=", st.line_⟩
  | '!' => pairOp src st '=' ⟨.NOT_EQUAL, "!=", st.line_⟩ ⟨.LEFT_PAREN, "(", st.line_⟩
  | '(' => ((some ⟨.LEFT_PAREN, "(", st.line_⟩, st), [])
  | ')' => ((some ⟨.RIGHT_PAREN, ")", st.line_⟩, st), [])
  | '[' => ((some ⟨.LEFT_BRACKET, "[", st.line_⟩, st), [])
  | ']' => ((some ⟨.RIGHT_BRACKET, "]", st.line_⟩, st), [])
  | ',' => ((some ⟨.COMMA, ",", st.line_⟩, st), [])
  | ':' => ((some ⟨.COLON, ":", st.line_⟩, st), [])
  | '.' => ((some ⟨.DOT, ".", st.line_⟩, st), [])
  | c =>
    if isAlpha c then
      let ri := scanIdentifierR src st
      ((some ri.1.1, ri.1.2), ri.2)
    else ((none, st), [])

/-- `Scanner::getNextToken` (lines 32-107), with the read log: skip whitespace
and comments, return `END_OF_FILE` at end, otherwise consume one character and
dispatch on it. -/
def getNextTokenR (src : List Char) (st : ScanState) :
    (Option Token × ScanState) × List Nat :=
  let rs := skipWhitespaceAndComments src st
  let st1 := rs.1
  if isAtEnd src st1 then ((some ⟨.END_OF_FILE, "", st1.line_⟩, st1), rs.2)
  else
    let rg := getCharR src st1
    let sw := tokenSwitch src rg.1.1 rg.1.2
    (sw.1, rs.2 ++ (rg.2 ++ sw.2))

/-- The observable behaviour of `Scanner::getNextToken`: the token produced
(`none` on the undefined-behaviour paths) and the state afterwards. -/
def getNextToken (src : List Char) (st : ScanState) : Option Token × ScanState :=
  (getNextTokenR src st).1

/-- The indices at which one call to `Scanner::getNextToken` reads the source
buffer. -/
def getNextTokenReads (src : List Char) (st : ScanState) : List Nat :=
  (getNextTokenR src st).2

/-! ## Specification-side definitions -/

/-- The 35 reserved words listed by the specification (alphabetical order). -/
def reservedWords : List String :=
  ["and", "as", "assert", "async", "await", "break", "class", "continue",
   "def", "del", "elif", "else", "except", "false", "finally", "for", "from",
   "global", "if", "import", "in", "is", "lambda", "none", "nonlocal", "not",
   "or", "pass", "raise", "return", "true", "try", "while", "with", "yield"]

/-- Whether a token kind is one of the keyword kinds `KW_*`. -/
def isKeywordKind : TokenType → Bool
  | .KW_FALSE | .KW_NONE | .KW_TRUE | .KW_AND | .KW_AS | .KW_ASSERT
  | .KW_ASYNC | .KW_AWAIT | .KW_BREAK | .KW_CLASS | .KW_CONTINUE | .KW_DEF
  | .KW_DEL | .KW_ELIF | .KW_ELSE | .KW_EXCEPT | .KW_FINALLY | .KW_FOR
  | .KW_FROM | .KW_GLOBAL | .KW_IF | .KW_IMPORT | .KW_IN | .KW_IS
  | .KW_LAMBDA | .KW_NONLOCAL | .KW_NOT | .KW_OR | .KW_PASS | .KW_RAISE
  | .KW_RETURN | .KW_TRY | .KW_WHILE | .KW_WITH | .KW_YIELD => true
  | _ => false

/-- The specific keyword kind the specification expects for each reserved word. -/
def keywordPairs : List (String × TokenType) :=
  [("and", .KW_AND), ("as", .KW_AS), ("assert", .KW_ASSERT), ("async", .KW_ASYNC),
   ("await", .KW_AWAIT), ("break", .KW_BREAK), ("class", .KW_CLASS),
   ("continue", .KW_CONTINUE), ("def", .KW_DEF), ("del", .KW_DEL),
   ("elif", .KW_ELIF), ("else", .KW_ELSE), ("except", .KW_EXCEPT),
   ("false", .KW_FALSE), ("finally", .KW_FINALLY), ("for", .KW_FOR),
   ("from", .KW_FROM), ("global", .KW_GLOBAL), ("if", .KW_IF),
   ("import", .KW_IMPORT), ("in", .KW_IN), ("is", .KW_IS),
   ("lambda", .KW_LAMBDA), ("none", .KW_NONE), ("nonlocal", .KW_NONLOCAL),
   ("not", .KW_NOT), ("or", .KW_OR), ("pass", .KW_PASS), ("raise", .KW_RAISE),
   ("return", .KW_RETURN), ("true", .KW_TRUE), ("try", .KW_TRY),
   ("while", .KW_WHILE), ("with", .KW_WITH), ("yield", .KW_YIELD)]

/-- A character that continues an identifier run (the condition of the
identifier loop). -/
def identChar (c : Char) : Bool :=
  isAlphaNumeric c || c = '_'

/-- A nonempty maximal-run candidate: a letter or underscore followed by
alphanumeric or underscore characters. -/
def isIdentRun (s : String) : Bool :=
  match s.data with
  | [] => false
  | c :: rest => isAlpha c && rest.all identChar

/-- Scans text that consists only of spaces, tabs, carriage returns, newlines
and hash comments.  The Bool argument records whether the scan is currently
inside a comment (a comment ends at a newline or at end of text). -/
def wsScan : Bool → List Char → Bool
  | _, [] => true
  | false, c :: rest =>
    if c = ' ' ∨ c = '\t' ∨ c = '\r' ∨ c = '\n' then wsScan false rest
    else if c = '#' then wsScan true rest
    else false
  | true, c :: rest =>
    if c = '\n' then wsScan false rest else wsScan true rest

/-- Text consisting only of whitespace and hash comments. -/
def wsCommentOnly (l : List Char) : Bool := wsScan false l

/-! ## Claims settled by direct evaluation of the embedded scanner -/

/-- Claim C1: fails on the code.  The claim says a lone `/` (not followed by a
second `/`) scans as a one-character division token and `//` as a single
two-character floor-division token.  The source (scanner.h line 54-55) instead
returns a `DOUBLE_SLASH` token with lexeme `//` for EVERY `/`, consuming only
one character, so a lone `/` becomes `//` and the input `//` becomes two
`DOUBLE_SLASH` tokens. -/
theorem c1_every_slash_scans_as_floor_division :
    getNextToken ['/'] initState
      = (some ⟨.DOUBLE_SLASH, "//", 1⟩, ⟨1, 1⟩)
    ∧ getNextToken ['/', '/'] initState
      = (some ⟨.DOUBLE_SLASH, "//", 1⟩, ⟨1, 1⟩)
    ∧ getNextToken ['/', '/'] ⟨1, 1⟩
      = (some ⟨.DOUBLE_SLASH, "//", 1⟩, ⟨2, 1⟩) :=
  ⟨rfl, rfl, rfl⟩

/-- Claim C2: fails on the code.  The claim says the two-character operators
are decided by looking at the next unconsumed character, so that `<=` scans as
one `LESS_EQUAL` token consuming two characters.  Because `peekChar`
(scanner.h line 122) reads `currentPosition_ + 1` — one position PAST the next
unconsumed character — the input `<=` scans as `LESS` (one character) followed
by `ASSIGN`, while `<==` scans as `LESS_EQUAL` by pairing `<` with the first
`=` after peeking at the second. -/
theorem c2_lookahead_is_one_position_too_far :
    getNextToken ['<', '='] initState
      = (some ⟨.LESS, "<", 1⟩, ⟨1, 1⟩)
    ∧ getNextToken ['<', '='] ⟨1, 1⟩
      = (some ⟨.ASSIGN, "=", 1⟩, ⟨2, 1⟩)
    ∧ getNextToken ['<', '=', '='] initState
      = (some ⟨.LESS_EQUAL, "<=", 1⟩, ⟨2, 1⟩)
    ∧ getNextToken ['-', '>'] initState
      = (some ⟨.MINUS, "-", 1⟩, ⟨1, 1⟩) :=
  ⟨rfl, rfl, rfl, rfl⟩

/-- Claim C3: fails on the code.  The claim says a bare `!` not followed by `=`
yields exactly one error-kind token.  The `!` case of the switch (scanner.h
lines 79-85) has only a comment in its else branch, so control falls through
into `case '('` and the scanner returns a `LEFT_PAREN` token with lexeme `(`
instead of an error token.  (The subsequent call does reach end of input.) -/
theorem c3_bare_bang_falls_through_to_left_paren :
    getNextToken ['!'] initState
      = (some ⟨.LEFT_PAREN, "(", 1⟩, ⟨1, 1⟩)
    ∧ getNextToken ['!'] ⟨1, 1⟩
      = (some ⟨.END_OF_FILE, "", 1⟩, ⟨1, 1⟩) :=
  ⟨rfl, rfl⟩

/-- Claim C4: fails on the code.  The claim says an unrecognized character
produces an error-kind token carrying the character and line.  The default
branch of the switch (scanner.h lines 101-106) only handles letters; for any
other character control falls off the end of `getNextToken` without returning
a token (undefined behaviour in the C++ source, `none` in this embedding). -/
theorem c4_unrecognized_character_returns_no_token :
    getNextToken ['@'] initState = (none, ⟨1, 1⟩)
    ∧ getNextToken ['$'] initState = (none, ⟨1, 1⟩) :=
  ⟨rfl, rfl⟩

/-- Claim C7: fails on the code.  The claim says a token preceded by `n`
newlines carries line `n + 1`.  On the input `<`, newline, `=` the first call
returns `LESS_EQUAL` and — through the off-by-one `peekChar` — `match` consumes
the newline at index 1 without incrementing `line_`, so the following `=`
token, preceded by one newline, carries line 1 instead of 2. -/
theorem c7_match_skips_newline_without_counting_it :
    getNextToken ['<', '\n', '='] initState
      = (some ⟨.LESS_EQUAL, "<=", 1⟩, ⟨2, 1⟩)
    ∧ getNextToken ['<', '\n', '='] ⟨2, 1⟩
      = (some ⟨.ASSIGN, "=", 1⟩, ⟨3, 1⟩)
    ∧ (['<', '\n', '='].count '\n' = 1) :=
  ⟨rfl, rfl, rfl⟩

/-- Claim C8: fails on the code.  The claim says a digit starts a numeric
literal and a quote starts a string literal.  `getNextToken` has no case for
digits or quotes: both fall into the default branch, fail the `isAlpha` test,
and control falls off the end of the function without returning a token. -/
theorem c8_digits_and_quotes_produce_no_token :
    getNextToken ['5'] initState = (none, ⟨1, 1⟩)
    ∧ getNextToken ['"'] initState = (none, ⟨1, 1⟩) :=
  ⟨rfl, rfl⟩

/-! ## Helper lemmas -/

lemma length_le_of_drop_eq_nil {src : List Char} {pos : Nat}
    (h : src.drop pos = []) : src.length ≤ pos := by
  have := congrArg List.length h
  simp [List.length_drop] at this
  omega

lemma drop_charAt_cons {src : List Char} {pos : Nat} (h : pos < src.length) :
    src.drop pos = charAt src pos :: src.drop (pos + 1) := by
  rw [List.drop_eq_getElem_cons h]
  congr 1
  simp [charAt, List.getD_eq_getElem?_getD, List.getElem?_eq_getElem h]

lemma skipCommentGo_fst_ge (src : List Char) :
    ∀ fuel pos, pos ≤ (skipCommentGo src fuel pos).1 := by
  intro fuel
  induction fuel with
  | zero => intro pos; simp [skipCommentGo]
  | succ n ih =>
    intro pos
    simp only [skipCommentGo]
    split_ifs with h1 h2
    · simp
    · simpa using le_trans (Nat.le_succ pos) (ih (pos + 1))
    · simp

lemma skipComment_fst_ge (src : List Char) (pos : Nat) :
    pos ≤ (skipComment src pos).1 :=
  skipCommentGo_fst_ge src _ pos

lemma skipComment_fst_succ_ge {src : List Char} {pos : Nat}
    (h : pos < src.length) (hc : charAt src pos ≠ '\n') :
    pos + 1 ≤ (skipComment src pos).1 := by
  unfold skipComment
  simp only [skipCommentGo, if_pos h, if_neg hc]
  simpa using skipCommentGo_fst_ge src src.length (pos + 1)

lemma skipWSGo_fst_ge (src : List Char) :
    ∀ fuel st, st.currentPosition_ ≤ ((skipWSGo src fuel st).1).currentPosition_ := by
  intro fuel
  induction fuel with
  | zero => intro st; simp [skipWSGo]
  | succ n ih =>
    intro st
    simp only [skipWSGo]
    split_ifs with h1 h2 h3 h4
    · simpa using le_trans (Nat.le_succ _) (ih ⟨st.currentPosition_ + 1, st.line_⟩)
    · simpa using le_trans (Nat.le_succ _) (ih ⟨st.currentPosition_ + 1, st.line_ + 1⟩)
    · have h5 := skipComment_fst_ge src st.currentPosition_
      simpa using le_trans h5 (ih ⟨(skipComment src st.currentPosition_).1, st.line_⟩)
    · simp
    · simp

lemma skipWS_fst_ge (src : List Char) (st : ScanState) :
    st.currentPosition_ ≤ (skipWhitespaceAndComments src st).1.currentPosition_ :=
  skipWSGo_fst_ge src _ st

lemma skipWSGo_progress (src : List Char) :
    ∀ fuel st, (skipWSGo src fuel st).1 = st
      ∨ st.currentPosition_ + 1 ≤ ((skipWSGo src fuel st).1).currentPosition_ := by
  intro fuel
  induction fuel with
  | zero => intro st; left; simp [skipWSGo]
  | succ n ih =>
    intro st
    simp only [skipWSGo]
    split_ifs with h1 h2 h3 h4
    · right; simpa using skipWSGo_fst_ge src n ⟨st.currentPosition_ + 1, st.line_⟩
    · right; simpa using skipWSGo_fst_ge src n ⟨st.currentPosition_ + 1, st.line_ + 1⟩
    · right
      have h5 : st.currentPosition_ + 1 ≤ (skipComment src st.currentPosition_).1 :=
        skipComment_fst_succ_ge h1 (by rw [h4]; decide)
      simpa using le_trans h5
        (skipWSGo_fst_ge src n ⟨(skipComment src st.currentPosition_).1, st.line_⟩)
    · left; simp
    · left; simp

lemma skipWS_progress (src : List Char) (st : ScanState) :
    (skipWhitespaceAndComments src st).1 = st
      ∨ st.currentPosition_ + 1 ≤ (skipWhitespaceAndComments src st).1.currentPosition_ :=
  skipWSGo_progress src _ st

lemma skipWS_at_end {src : List Char} {st : ScanState}
    (h : src.length ≤ st.currentPosition_) :
    skipWhitespaceAndComments src st = (st, []) := by
  unfold skipWhitespaceAndComments
  simp only [skipWSGo]
  rw [if_neg (by omega)]

lemma scanIdentGo_snd_ge (src : List Char) :
    ∀ fuel pos acc, pos ≤ ((scanIdentGo src fuel pos acc).1).2 := by
  intro fuel
  induction fuel with
  | zero => intro pos acc; simp [scanIdentGo]
  | succ n ih =>
    intro pos acc
    simp only [scanIdentGo]
    split_ifs with h1 h2
    · simpa using le_trans (Nat.le_succ pos) (ih (pos + 1) _)
    · simp
    · simp

lemma matchChar_snd_pos_ge (src : List Char) (st : ScanState) (p e : Char) :
    st.currentPosition_ ≤ (matchChar src st p e).2.currentPosition_ := by
  unfold matchChar
  split_ifs <;> simp

lemma pairOp_snd_pos_ge (src : List Char) (st : ScanState) (e : Char)
    (t1 t2 : Token) :
    st.currentPosition_ ≤ ((pairOp src st e t1 t2).1).2.currentPosition_ := by
  unfold pairOp
  simpa using matchChar_snd_pos_ge src st _ e

lemma scanIdentifierR_snd_pos_ge (src : List Char) (st : ScanState) :
    st.currentPosition_ ≤ ((scanIdentifierR src st).1).2.currentPosition_ := by
  unfold scanIdentifierR
  simpa using scanIdentGo_snd_ge src _ st.currentPosition_ _

lemma tokenSwitch_snd_pos_ge (src : List Char) (c : Char) (st : ScanState) :
    st.currentPosition_ ≤ ((tokenSwitch src c st).1).2.currentPosition_ := by
  unfold tokenSwitch
  split
  all_goals
    first
      | exact pairOp_snd_pos_ge src st _ _ _
      | exact Nat.le_refl _
      | (split <;>
          first
            | exact scanIdentifierR_snd_pos_ge src st
            | exact Nat.le_refl _)

lemma getNextToken_eq_eof {src : List Char} {st : ScanState}
    (hend : isAtEnd src (skipWhitespaceAndComments src st).1 = true) :
    getNextToken src st
      = (some ⟨.END_OF_FILE, "", (skipWhitespaceAndComments src st).1.line_⟩,
         (skipWhitespaceAndComments src st).1) := by
  simp only [getNextToken, getNextTokenR]
  rw [if_pos hend]

lemma getNextToken_eq_switch {src : List Char} {st : ScanState}
    (hend : ¬ isAtEnd src (skipWhitespaceAndComments src st).1 = true) :
    getNextToken src st
      = (tokenSwitch src
          (charAt src (skipWhitespaceAndComments src st).1.currentPosition_)
          ⟨(skipWhitespaceAndComments src st).1.currentPosition_ + 1,
            (skipWhitespaceAndComments src st).1.line_⟩).1 := by
  simp only [getNextToken, getNextTokenR, getCharR]
  rw [if_neg hend]

lemma getNextToken_at_end {src : List Char} {st : ScanState}
    (h : src.length ≤ st.currentPosition_) :
    getNextToken src st = (some ⟨.END_OF_FILE, "", st.line_⟩, st) := by
  have h1 : skipWhitespaceAndComments src st = (st, []) := skipWS_at_end h
  have h2 : isAtEnd src (skipWhitespaceAndComments src st).1 = true := by
    rw [h1]; simpa [isAtEnd] using h
  rw [getNextToken_eq_eof h2, h1]

/-- Claim C6: holds.  The cursor never decreases; each call either advances the
cursor by at least one character or returns the `END_OF_FILE` token with the
state unchanged; and once the cursor is at the end of the source, every call
returns that same `END_OF_FILE` token and leaves the state unchanged. -/
theorem c6_cursor_monotone_and_eof_idempotent (src : List Char) (st : ScanState) :
    st.currentPosition_ ≤ (getNextToken src st).2.currentPosition_
    ∧ (st.currentPosition_ + 1 ≤ (getNextToken src st).2.currentPosition_
        ∨ getNextToken src st = (some ⟨.END_OF_FILE, "", st.line_⟩, st))
    ∧ (src.length ≤ st.currentPosition_ →
        getNextToken src st = (some ⟨.END_OF_FILE, "", st.line_⟩, st)) := by
  by_cases hend : isAtEnd src (skipWhitespaceAndComments src st).1 = true
  · rcases skipWS_progress src st with heq | hlt
    · have hres : getNextToken src st = (some ⟨.END_OF_FILE, "", st.line_⟩, st) := by
        rw [getNextToken_eq_eof hend, heq]
      refine ⟨?_, Or.inr hres, fun _ => hres⟩
      rw [hres]
    · have hres := getNextToken_eq_eof hend
      refine ⟨?_, Or.inl ?_, fun h => getNextToken_at_end h⟩
      · rw [hres]; exact le_trans (Nat.le_succ _) hlt
      · rw [hres]; exact hlt
  · have hres := getNextToken_eq_switch hend
    have h2 := skipWS_fst_ge src st
    have h3 := tokenSwitch_snd_pos_ge src
      (charAt src (skipWhitespaceAndComments src st).1.currentPosition_)
      ⟨(skipWhitespaceAndComments src st).1.currentPosition_ + 1,
        (skipWhitespaceAndComments src st).1.line_⟩
    refine ⟨?_, Or.inl ?_, fun h => getNextToken_at_end h⟩
    · rw [hres]; exact le_trans h2 (le_trans (Nat.le_succ _) h3)
    · rw [hres]; exact le_trans (Nat.add_le_add_right h2 1) h3

/-- Witness for claim C6 at a concrete input: at end of input the scanner is
idempotent, returning `END_OF_FILE` and leaving the state unchanged. -/
theorem c6_witness :
    getNextToken ['a'] ⟨1, 1⟩ = (some ⟨.END_OF_FILE, "", 1⟩, ⟨1, 1⟩) :=
  (c6_cursor_monotone_and_eof_idempotent ['a'] ⟨1, 1⟩).2.2 (by decide)

/-! ## Buffer-access safety (claim C10) -/

lemma skipCommentGo_reads_lt (src : List Char) :
    ∀ fuel pos, ∀ i ∈ (skipCommentGo src fuel pos).2, i < src.length := by
  intro fuel
  induction fuel with
  | zero => intro pos i hi; simp [skipCommentGo] at hi
  | succ n ih =>
    intro pos i hi
    simp only [skipCommentGo] at hi
    split_ifs at hi with h1 h2
    · simp at hi; omega
    · simp at hi
      rcases hi with rfl | hi
      · exact h1
      · exact ih (pos + 1) i hi
    · simp at hi

lemma skipWSGo_reads_lt (src : List Char) :
    ∀ fuel st, ∀ i ∈ (skipWSGo src fuel st).2, i < src.length := by
  intro fuel
  induction fuel with
  | zero => intro st i hi; simp [skipWSGo] at hi
  | succ n ih =>
    intro st i hi
    simp only [skipWSGo] at hi
    split_ifs at hi with h1 h2 h3 h4
    · simp at hi
      rcases hi with rfl | hi
      · exact h1
      · exact ih _ i hi
    · simp at hi
      rcases hi with rfl | hi
      · exact h1
      · exact ih _ i hi
    · simp at hi
      rcases hi with rfl | hi | hi
      · exact h1
      · exact skipCommentGo_reads_lt src _ _ i hi
      · exact ih _ i hi
    · simp at hi; omega
    · simp at hi

lemma scanIdentGo_reads_lt (src : List Char) :
    ∀ fuel pos acc, ∀ i ∈ (scanIdentGo src fuel pos acc).2, i < src.length := by
  intro fuel
  induction fuel with
  | zero => intro pos acc i hi; simp [scanIdentGo] at hi
  | succ n ih =>
    intro pos acc i hi
    simp only [scanIdentGo] at hi
    split_ifs at hi with h1 h2
    · simp at hi
      rcases hi with rfl | hi
      · exact h1
      · exact ih (pos + 1) _ i hi
    · simp at hi; omega
    · simp at hi

lemma pairOp_reads_le (src : List Char) (st : ScanState) (e : Char)
    (t1 t2 : Token) : ∀ i ∈ (pairOp src st e t1 t2).2, i ≤ src.length := by
  intro i hi
  simp only [pairOp, peekCharR] at hi
  split_ifs at hi with h1
  · simp at hi
  · simp at hi
    simp only [isAtEnd, decide_eq_true_eq] at h1
    omega

lemma scanIdentifierR_reads_le {src : List Char} {st : ScanState}
    (h : st.currentPosition_ ≤ src.length + 1) :
    ∀ i ∈ (scanIdentifierR src st).2, i ≤ src.length := by
  intro i hi
  simp only [scanIdentifierR] at hi
  simp at hi
  rcases hi with rfl | hi
  · omega
  · exact le_of_lt (scanIdentGo_reads_lt src _ _ _ i hi)

lemma tokenSwitch_reads_le {src : List Char} {st : ScanState}
    (h : st.currentPosition_ ≤ src.length + 1) (c : Char) :
    ∀ i ∈ (tokenSwitch src c st).2, i ≤ src.length := by
  unfold tokenSwitch
  split
  all_goals
    first
      | exact pairOp_reads_le src st _ _ _
      | (intro i hi; exact absurd hi (List.not_mem_nil i))
      | (intro i hi
         by_cases ha : isAlpha c = true
         · rw [if_pos ha] at hi
           exact scanIdentifierR_reads_le h i hi
         · rw [if_neg ha] at hi
           exact absurd hi (List.not_mem_nil i))

/-- Claim C10: holds.  Every index at which a call to `getNextToken` reads the
source buffer is at most the buffer length; in particular the unguarded access
of `peekChar` at `currentPosition_ + 1` stays within the closed range covered
by `std::string::operator[]` (index `length` yields the NUL terminator). -/
theorem c10_reads_within_bounds (src : List Char) (st : ScanState) :
    ∀ i ∈ getNextTokenReads src st, i ≤ src.length := by
  intro i hi
  unfold getNextTokenReads getNextTokenR at hi
  by_cases hend : isAtEnd src (skipWhitespaceAndComments src st).1 = true
  · rw [if_pos hend] at hi
    simp only at hi
    exact le_of_lt (skipWSGo_reads_lt src _ _ i hi)
  · rw [if_neg hend] at hi
    simp only [getCharR] at hi
    simp only [isAtEnd, decide_eq_true_eq] at hend
    simp at hi
    rcases hi with hi | rfl | hi
    · exact le_of_lt (skipWSGo_reads_lt src _ _ i hi)
    · omega
    · refine tokenSwitch_reads_le ?_ _ i hi
      show (skipWhitespaceAndComments src st).1.currentPosition_ + 1 ≤ src.length + 1
      omega

/-- Witness for claim C10: on the input `<=` the scanner performs a boundary
read at index 2 = length (the NUL terminator read by `peekChar`), and the bound
holds for it. -/
theorem c10_witness :
    2 ∈ getNextTokenReads ['<', '='] initState
    ∧ 2 ≤ (['<', '='] : List Char).length :=
  ⟨by decide, c10_reads_within_bounds ['<', '='] initState 2 (by decide)⟩

/-! ## Whitespace- and comment-only inputs (claim C9) -/

lemma drop_eq_nil_of_ge {src : List Char} {pos : Nat}
    (h : src.length ≤ pos) : src.drop pos = [] := by
  apply List.drop_eq_nil_of_le h

lemma skipCommentGo_wsOnly (src : List Char) :
    ∀ fuel pos, src.length ≤ pos + fuel → pos ≤ src.length →
      wsScan true (src.drop pos) = true →
      (skipCommentGo src fuel pos).1 ≤ src.length
      ∧ wsScan false (src.drop (skipCommentGo src fuel pos).1) = true
      ∧ (src.drop (skipCommentGo src fuel pos).1).count '\n'
          = (src.drop pos).count '\n' := by
  intro fuel
  induction fuel with
  | zero =>
    intro pos hfuel hle hws
    have hd : src.drop pos = [] := drop_eq_nil_of_ge (by omega)
    simp [skipCommentGo, hle, hd, wsScan]
  | succ n ih =>
    intro pos hfuel hle hws
    simp only [skipCommentGo]
    by_cases h1 : pos < src.length
    · rw [if_pos h1]
      have hdrop := drop_charAt_cons h1
      by_cases h2 : charAt src pos = '\n'
      · rw [if_pos h2]
        rw [h2] at hdrop
        rw [hdrop] at hws
        simp only [wsScan, if_pos rfl] at hws
        refine ⟨le_of_lt h1, ?_, rfl⟩
        rw [hdrop]
        simpa [wsScan] using hws
      · rw [if_neg h2]
        have hws2 : wsScan true (src.drop (pos + 1)) = true := by
          rw [hdrop] at hws
          simpa [wsScan, h2] using hws
        have hcount : (src.drop pos).count '\n' = (src.drop (pos + 1)).count '\n' := by
          rw [hdrop]
          simp [List.count_cons, h2]
        obtain ⟨ha, hb, hc⟩ := ih (pos + 1) (by omega) (by omega) hws2
        exact ⟨by simpa using ha, by simpa using hb, by simpa [hcount] using hc⟩
    · rw [if_neg h1]
      have hd : src.drop pos = [] := drop_eq_nil_of_ge (by omega)
      simp [hle, hd, wsScan]

lemma skipComment_wsOnly {src : List Char} {pos : Nat}
    (hle : pos ≤ src.length) (hws : wsScan true (src.drop pos) = true) :
    (skipComment src pos).1 ≤ src.length
    ∧ wsScan false (src.drop (skipComment src pos).1) = true
    ∧ (src.drop (skipComment src pos).1).count '\n' = (src.drop pos).count '\n' :=
  skipCommentGo_wsOnly src (src.length + 1) pos (by omega) hle hws

lemma skipWSGo_wsOnly (src : List Char) :
    ∀ fuel pos line, src.length ≤ pos + fuel → pos ≤ src.length →
      wsScan false (src.drop pos) = true →
      (skipWSGo src fuel ⟨pos, line⟩).1
        = ⟨src.length, line + (src.drop pos).count '\n'⟩ := by
  intro fuel
  induction fuel with
  | zero =>
    intro pos line hfuel hle hws
    have hd : src.drop pos = [] := drop_eq_nil_of_ge (by omega)
    simp [skipWSGo, hd]
    omega
  | succ n ih =>
    intro pos line hfuel hle hws
    simp only [skipWSGo]
    by_cases h1 : pos < src.length
    · rw [if_pos h1]
      have hdrop := drop_charAt_cons h1
      by_cases hA : charAt src pos = ' ' ∨ charAt src pos = '\t' ∨ charAt src pos = '\r'
      · rw [if_pos hA]
        have hne : charAt src pos ≠ '\n' := by
          rcases hA with h | h | h <;> rw [h] <;> decide
        have hws2 : wsScan false (src.drop (pos + 1)) = true := by
          rw [hdrop] at hws
          have hor : charAt src pos = ' ' ∨ charAt src pos = '\t'
              ∨ charAt src pos = '\r' ∨ charAt src pos = '\n' := by tauto
          simpa [wsScan, if_pos hor] using hws
        have hcount : (src.drop pos).count '\n' = (src.drop (pos + 1)).count '\n' := by
          rw [hdrop]
          simp [List.count_cons, hne]
        rw [hcount]
        simpa using ih (pos + 1) line (by omega) (by omega) hws2
      · by_cases hB : charAt src pos = '\n'
        · rw [if_neg hA, if_pos hB]
          have hws2 : wsScan false (src.drop (pos + 1)) = true := by
            rw [hdrop] at hws
            have hor : charAt src pos = ' ' ∨ charAt src pos = '\t'
                ∨ charAt src pos = '\r' ∨ charAt src pos = '\n' := by tauto
            simpa [wsScan, if_pos hor] using hws
          have hcount : (src.drop pos).count '\n'
              = (src.drop (pos + 1)).count '\n' + 1 := by
            rw [hdrop]
            simp [List.count_cons, hB]
          rw [hcount]
          have := ih (pos + 1) (line + 1) (by omega) (by omega) hws2
          simp only at this ⊢
          rw [this]
          congr 1
          omega
        · by_cases hC : charAt src pos = '#'
          · rw [if_neg hA, if_neg hB, if_pos hC]
            have hws2 : wsScan true (src.drop pos) = true := by
              rw [hC] at hdrop
              rw [hdrop] at hws ⊢
              simpa [wsScan] using hws
            obtain ⟨hple, hpws, hpcount⟩ := skipComment_wsOnly (le_of_lt h1) hws2
            have hstep : pos + 1 ≤ (skipComment src pos).1 :=
              skipComment_fst_succ_ge h1 (by rw [hC]; decide)
            have := ih (skipComment src pos).1 line (by omega) hple hpws
            simp only at this ⊢
            rw [this, hpcount]
          · exfalso
            push_neg at hA
            rw [hdrop] at hws
            simp [wsScan, hA.1, hA.2.1, hA.2.2, hB, hC] at hws
    · rw [if_neg h1]
      have hd : src.drop pos = [] := drop_eq_nil_of_ge (by omega)
      simp [hd]
      omega

/-- Claim C9: holds.  On a source consisting only of spaces, tabs, carriage
returns, newlines and hash comments, the first call to `getNextToken` returns
the `END_OF_FILE` token with empty lexeme and line `1 + n`, where `n` is the
number of newline characters in the source. -/
theorem c9_blank_source_scans_to_eof (src : List Char)
    (h : wsCommentOnly src = true) :
    getNextToken src initState
      = (some ⟨.END_OF_FILE, "", 1 + src.count '\n'⟩,
         ⟨src.length, 1 + src.count '\n'⟩) := by
  have h1 : (skipWhitespaceAndComments src initState).1
      = ⟨src.length, 1 + src.count '\n'⟩ := by
    have := skipWSGo_wsOnly src (src.length + 1) 0 1 (by omega) (by omega)
      (by simpa [wsCommentOnly] using h)
    simpa [skipWhitespaceAndComments, initState] using this
  have hend : isAtEnd src (skipWhitespaceAndComments src initState).1 = true := by
    rw [h1]; simp [isAtEnd]
  rw [getNextToken_eq_eof hend, h1]

/-- Witness for claim C9 at a concrete input: a comment line followed by a
space scans directly to `END_OF_FILE` at line 2. -/
theorem c9_witness :
    getNextToken ['#', 'x', '\n', ' '] initState
      = (some ⟨.END_OF_FILE, "", 1 + (['#', 'x', '\n', ' '] : List Char).count '\n'⟩,
         ⟨(['#', 'x', '\n', ' '] : List Char).length,
          1 + (['#', 'x', '\n', ' '] : List Char).count '\n'⟩) :=
  c9_blank_source_scans_to_eof ['#', 'x', '\n', ' '] (by decide)

/-! ## Identifier and keyword scanning (claim C5) -/

lemma lt_length_of_drop_cons {src : List Char} {pos : Nat} {c : Char}
    {t : List Char} (h : src.drop pos = c :: t) : pos < src.length := by
  have := congrArg List.length h
  simp [List.length_drop] at this
  omega

lemma charAt_of_drop_cons {src : List Char} {pos : Nat} {c : Char}
    {t : List Char} (h : src.drop pos = c :: t) : charAt src pos = c := by
  have hlt := lt_length_of_drop_cons h
  have := drop_charAt_cons hlt
  rw [h] at this
  exact (List.cons.injEq _ _ _ _ ▸ this.symm).1

lemma drop_succ_of_drop_cons {src : List Char} {pos : Nat} {c : Char}
    {t : List Char} (h : src.drop pos = c :: t) : src.drop (pos + 1) = t := by
  rw [← List.tail_drop, h]
  rfl

lemma scanIdentGo_spec (src : List Char) (post : List Char)
    (hpost : ∀ x, post.head? = some x → identChar x = false) :
    ∀ (pre : List Char) fuel pos acc, src.drop pos = pre ++ post →
      (∀ x ∈ pre, identChar x = true) →
      pre.length < fuel →
      (scanIdentGo src fuel pos acc).1 = (acc ++ pre, pos + pre.length) := by
  intro pre
  induction pre with
  | nil =>
    intro fuel pos acc hdrop hpre hfuel
    cases fuel with
    | zero => omega
    | succ n =>
      simp only [scanIdentGo]
      simp only [List.nil_append] at hdrop
      cases hp : post with
      | nil =>
        rw [hp] at hdrop
        rw [if_neg (by have := length_le_of_drop_eq_nil hdrop; omega)]
        simp
      | cons x t =>
        rw [hp] at hdrop
        have hlt := lt_length_of_drop_cons hdrop
        have hx := charAt_of_drop_cons hdrop
        have hfalse : identChar (charAt src pos) = false := by
          rw [hx]
          exact hpost x (by rw [hp]; rfl)
        rw [if_pos hlt, if_neg (by simpa [identChar] using hfalse)]
        simp
  | cons c pre' ih =>
    intro fuel pos acc hdrop hpre hfuel
    cases fuel with
    | zero => simp at hfuel
    | succ n =>
      simp only [scanIdentGo]
      have hdrop' : src.drop pos = c :: (pre' ++ post) := by simpa using hdrop
      have hlt := lt_length_of_drop_cons hdrop'
      have hc := charAt_of_drop_cons hdrop'
      have htrue : identChar (charAt src pos) = true := by
        rw [hc]; exact hpre c (by simp)
      rw [if_pos hlt, if_pos (by simpa [identChar] using htrue)]
      have hrec := ih n (pos + 1) (acc ++ [charAt src pos])
        (drop_succ_of_drop_cons hdrop')
        (fun x hx => hpre x (by simp [hx]))
        (by simp only [List.length_cons] at hfuel; omega)
      rw [hc] at hrec
      simp only [hrec, hc]
      have hl : acc ++ [c] ++ pre' = acc ++ c :: pre' := by simp
      have hn : pos + 1 + pre'.length = pos + (pre'.length + 1) := by omega
      rw [hl, hn]
      rfl

lemma skipWS_nop {src : List Char} {st : ScanState}
    (hlt : st.currentPosition_ < src.length)
    (h1 : ¬(charAt src st.currentPosition_ = ' '
        ∨ charAt src st.currentPosition_ = '\t'
        ∨ charAt src st.currentPosition_ = '\r'))
    (h2 : charAt src st.currentPosition_ ≠ '\n')
    (h3 : charAt src st.currentPosition_ ≠ '#') :
    skipWhitespaceAndComments src st = (st, [st.currentPosition_]) := by
  unfold skipWhitespaceAndComments
  simp only [skipWSGo]
  rw [if_pos hlt, if_neg h1, if_neg h2, if_neg h3]

lemma isAlpha_ne {c : Char} (h : isAlpha c = true) (a : Char)
    (ha : isAlpha a = false) : c ≠ a := by
  intro e
  subst e
  rw [ha] at h
  exact absurd h (by decide)

lemma tokenSwitch_alpha {src : List Char} {st : ScanState} {c : Char}
    (h : isAlpha c = true) :
    tokenSwitch src c st
      = ((some (scanIdentifierR src st).1.1, (scanIdentifierR src st).1.2),
         (scanIdentifierR src st).2) := by
  revert h
  unfold tokenSwitch
  split
  all_goals intro h
  all_goals first
    | exact absurd h (by decide)
    | rw [if_pos h]

lemma getKeywordType_mem {w : String}
    (h : getKeywordType w ≠ TokenType.IDENTIFIER) : w ∈ reservedWords := by
  revert h
  unfold getKeywordType
  split
  all_goals intro h
  all_goals first
    | decide
    | exact absurd rfl h

lemma mem_isKeywordKind : ∀ w ∈ reservedWords,
    isKeywordKind (getKeywordType w) = true := by decide

/-- Claim C5: holds.  A maximal run of alphanumeric or underscore characters
that starts with a letter or underscore scans to a single token whose lexeme is
exactly the run and whose kind is `getKeywordType` of the run; that kind is one
of the 35 keyword kinds exactly when the run is one of the 35 reserved words of
the specification (case-sensitively), each reserved word mapping to its
specific keyword kind, and is `IDENTIFIER` for every other run. -/
theorem c5_keywords_and_identifiers (w : String) (rest : List Char)
    (hw : isIdentRun w = true)
    (hrest : rest.head?.all (fun x => ! identChar x) = true) :
    getNextToken (w.data ++ rest) initState
      = (some ⟨getKeywordType w, w, 1⟩, ⟨w.length, 1⟩)
    ∧ (isKeywordKind (getKeywordType w) = true ↔ w ∈ reservedWords)
    ∧ (∀ p ∈ keywordPairs, getKeywordType p.1 = p.2) := by
  refine ⟨?_, ⟨fun hk => ?_, fun hm => mem_isKeywordKind w hm⟩, by decide⟩
  · cases hd : w.data with
    | nil => rw [isIdentRun, hd] at hw; simp at hw
    | cons c tl =>
      rw [isIdentRun, hd] at hw
      simp only [Bool.and_eq_true, List.all_eq_true] at hw
      obtain ⟨ha, htl⟩ := hw
      rw [List.cons_append]
      have hlen : (c :: (tl ++ rest)).length = tl.length + 1 + rest.length := by
        simp only [List.length_cons, List.length_append]
        omega
      have hc0 : charAt (c :: (tl ++ rest)) initState.currentPosition_ = c := rfl
      have hlt0 : initState.currentPosition_ < (c :: (tl ++ rest)).length := by
        show 0 < (c :: (tl ++ rest)).length
        simp
      have hskip : skipWhitespaceAndComments (c :: (tl ++ rest)) initState
          = (⟨0, 1⟩, [0]) := by
        refine skipWS_nop hlt0 ?_ ?_ ?_
        · rw [hc0]
          rintro (h | h | h)
          · exact isAlpha_ne ha ' ' (by decide) h
          · exact isAlpha_ne ha '\t' (by decide) h
          · exact isAlpha_ne ha '\r' (by decide) h
        · rw [hc0]; exact isAlpha_ne ha '\n' (by decide)
        · rw [hc0]; exact isAlpha_ne ha '#' (by decide)
      have hend : ¬ isAtEnd (c :: (tl ++ rest))
          (skipWhitespaceAndComments (c :: (tl ++ rest)) initState).1 = true := by
        rw [hskip]
        simp [isAtEnd]
      rw [getNextToken_eq_switch hend, hskip]
      simp only
      have hcharz : charAt (c :: (tl ++ rest))
          (({ currentPosition_ := 0, line_ := 1 } : ScanState).currentPosition_) = c := rfl
      rw [hcharz, tokenSwitch_alpha ha]
      have hpost : ∀ x, rest.head? = some x → identChar x = false := by
        intro x hx
        rw [hx] at hrest
        simpa [Option.all] using hrest
      have hdrop1 : (c :: (tl ++ rest)).drop 1 = tl ++ rest := rfl
      have hscan := scanIdentGo_spec (c :: (tl ++ rest)) rest hpost tl
        ((c :: (tl ++ rest)).length + 1) 1 [c] hdrop1 htl (by omega)
      simp only [scanIdentifierR]
      have hfirst : charAt (c :: (tl ++ rest)) (1 - 1) = c := rfl
      rw [hfirst, hscan]
      have hwdata : (⟨[c] ++ tl⟩ : String) = w := by
        show (⟨c :: tl⟩ : String) = w
        rw [← hd]
      have hwlen : w.length = tl.length + 1 := by
        simp [String.length, hd]
      simp only [hwdata]
      have hlen2 : 1 + tl.length = w.length := by omega
      rw [hlen2]
  · by_cases hid : getKeywordType w = TokenType.IDENTIFIER
    · rw [hid] at hk
      exact absurd hk (by decide)
    · exact getKeywordType_mem hid

/-- Witness for claim C5 at a concrete input: the run `while` followed by a
space scans as the single keyword token `KW_WHILE` consuming exactly the run. -/
theorem c5_witness :
    getNextToken ("while".data ++ [' ']) initState
      = (some ⟨getKeywordType "while", "while", 1⟩, ⟨"while".length, 1⟩)
    ∧ (isKeywordKind (getKeywordType "while") = true ↔ "while" ∈ reservedWords)
    ∧ (∀ p ∈ keywordPairs, getKeywordType p.1 = p.2) :=
  c5_keywords_and_identifiers "while" [' '] (by decide) (by decide)
